import Mathlib

/-!
Verification of the field container (lattice) core of the GPT repository
(`lib/gpt/core/lattice.py`) against its natural-language specification.

The embedding has two layers:

* a stateful layer (`EngineState`, `GState`, `Lattice`) modelling the lattice
  lifecycle, checkerboard state, the memory bookkeeping registry and the
  narrow storage-engine contract (`cgpt.*` calls, which are outside the
  excerpted sources and are modelled from the spec's storage-engine contract);
* a content layer (`BLattice`, `lattice_setitem`, `lattice_getitem`)
  modelling element access through resolved keys, views and copy plans
  (`gpt.map_key`, `gpt.copy_plan`, `gpt.lattice_view` are outside the
  excerpted sources and are modelled from the spec).
-/

namespace GPT

/-- Numeric precision descriptor of a grid: `nbytes` is the byte width of one
real floating-point number of this precision. -/
structure Precision where
  nbytes : Nat
deriving DecidableEq

/-- Checkerboard descriptor of a grid: `n` is the parity arity
(1 = no checkerboarding, 2 = even/odd split). -/
structure CbDesc where
  n : Nat
deriving DecidableEq

/-- Modelled from the spec: the grid object (`gpt.grid` is outside the
excerpted sources).  `obj` is the opaque engine handle, `gsites` the global
site count, `Nprocessors` the process count, `cb` the checkerboard
descriptor. -/
structure Grid where
  obj : Nat
  fdimensions : List Nat
  precision : Precision
  gsites : Nat
  Nprocessors : Nat
  processor : Nat
  cb : CbDesc
deriving DecidableEq

/-- Modelled from the spec: the object-type descriptor (`gpt.otype` is outside
the excerpted sources).  `name` is its `__name__`, `v_otype` the list of
sub-object tags (one storage handle is allocated per entry), `nfloats` the
per-site real-number count, `shape` the per-site tensor shape. -/
structure OType where
  name : List Char
  v_otype : List (List Char)
  nfloats : Nat
  shape : List Nat
deriving DecidableEq

/-- Checkerboard values `gpt.none`, `gpt.even`, `gpt.odd`. -/
inductive CB where
  | none : CB
  | even : CB
  | odd : CB
deriving DecidableEq

/-- Modelled from the spec: the engine parity tags of the checkerboard values
(the tag constants live outside the excerpted sources); only their pairwise
distinctness is relied upon. -/
def CB.tag : CB → Nat
  | CB.none => 2
  | CB.even => 0
  | CB.odd => 1

/-- The `__name__` of a checkerboard value, as a list of characters. -/
def CB.pyname : CB → List Char
  | CB.none => ['n', 'o', 'n', 'e']
  | CB.even => ['e', 'v', 'e', 'n']
  | CB.odd => ['o', 'd', 'd']

/-- Modelled from the spec: one storage-engine allocation (an opaque
sub-object of a field): a parity tag plus raw content, indexed by a flat
element index. -/
structure Storage where
  cbTag : Nat
  content : Nat → Int

/-- Modelled from the spec: the storage-engine state (`cgpt` is an external
collaborator invoked through a narrow contract).  `nextHandle` generates
fresh handles, `storages` maps a handle to its live allocation, `freeCalls`
counts how often each handle was freed, and `fresh` gives the
implementation-defined initial content of a new allocation. -/
structure EngineState where
  nextHandle : Nat
  storages : Nat → Option Storage
  freeCalls : Nat → Nat
  fresh : Nat → Nat → Int

/-- Modelled from the spec: `cgpt.create_lattice(grid.obj, t, precision)`:
allocate a fresh storage handle; the new allocation carries the engine's
default (even) parity tag and implementation-defined initial content. -/
def create_lattice (gobj : Nat) (t : List Char) (prec : Precision) (s : EngineState) :
    Nat × EngineState :=
  (s.nextHandle,
   { s with
     nextHandle := s.nextHandle + 1,
     storages := fun h =>
       if h = s.nextHandle then some ⟨CB.even.tag, s.fresh s.nextHandle⟩ else s.storages h })

/-- The allocation loop `[cgpt.create_lattice(self.grid.obj, t, self.grid.precision)
for t in self.otype.v_otype]` of `lattice.__init__`. -/
def create_lattices (gobj : Nat) (prec : Precision) :
    List (List Char) → EngineState → List Nat × EngineState
  | [], s => ([], s)
  | t :: ts, s =>
    let r := create_lattice gobj t prec s
    let r2 := create_lattices gobj prec ts r.2
    (r.1 :: r2.1, r2.2)

/-- Modelled from the spec: `cgpt.delete_lattice(o)`: release the allocation
behind handle `o` and count the free call. -/
def delete_lattice (o : Nat) (s : EngineState) : EngineState :=
  { s with
    storages := fun h => if h = o then Option.none else s.storages h,
    freeCalls := fun h => if h = o then s.freeCalls h + 1 else s.freeCalls h }

/-- Modelled from the spec: `cgpt.lattice_get_checkerboard(o)` returns the
parity tag stored on handle `o`. -/
def lattice_get_checkerboard (o : Nat) (s : EngineState) : Nat :=
  match s.storages o with
  | some st => st.cbTag
  | Option.none => 0

/-- Modelled from the spec: `cgpt.lattice_change_checkerboard(o, tag)`
reinterprets the parity tag of handle `o`; it does not move data. -/
def lattice_change_checkerboard (o : Nat) (tag : Nat) (s : EngineState) : EngineState :=
  { s with
    storages := fun h =>
      if h = o then (s.storages h).map (fun st => { st with cbTag := tag })
      else s.storages h }

/-- The field container: a grid reference, an otype reference and one storage
handle per otype sub-object (`self.v_obj`). -/
structure Lattice where
  grid : Grid
  otype : OType
  v_obj : List Nat
deriving DecidableEq

/-- The primary storage handle `self.v_obj[0]`, used to key the memory book. -/
def primary (lat : Lattice) : Nat := lat.v_obj.headD 0

/-- Process-wide state: the engine state, the memory bookkeeping registry
`mem_book` (handle identity to (grid, otype, creation time)) and a logical
clock standing in for `gpt.time()`. -/
structure GState where
  engine : EngineState
  mem_book : Nat → Option (Grid × OType × Nat)
  time : Nat

/-- The query half of `lattice.checkerboard()`: returns `gpt.none` on a grid
without parity split, otherwise decodes the tag of the first storage handle;
an unknown tag is the `assert 0` failure, modelled as `Option.none`. -/
def checkerboard_query (lat : Lattice) (s : GState) : Option CB :=
  if lat.grid.cb.n = 1 then some CB.none
  else
    let cb := lattice_get_checkerboard (primary lat) s.engine
    if cb = CB.even.tag then some CB.even
    else if cb = CB.odd.tag then some CB.odd
    else Option.none

/-- The setter half of `lattice.checkerboard(val)`: a real parity asserts
`grid.cb.n != 1` (failure modelled as `Option.none`) and retags every storage
handle; `gpt.none` falls through without touching the engine. -/
def checkerboard_set (lat : Lattice) (val : CB) (s : GState) : Option GState :=
  if val ≠ CB.none then
    if lat.grid.cb.n = 1 then Option.none
    else some
      { s with
        engine := lat.v_obj.foldl (fun e o => lattice_change_checkerboard o val.tag e) s.engine }
  else some s

/-- The `(grid, otype)` constructor path of `lattice.__init__`: allocate one
handle per sub-object, record the field in the memory book keyed by the first
handle; no checkerboard call is made (`cb` stays unset on this path). -/
def lattice_init (g : Grid) (ot : OType) (s : GState) : Lattice × GState :=
  let r := create_lattices g.obj g.precision ot.v_otype s.engine
  let lat : Lattice := ⟨g, ot, r.1⟩
  (lat,
   { engine := r.2,
     mem_book := fun k => if k = primary lat then some (g, ot, s.time) else s.mem_book k,
     time := s.time + 1 })

/-- The shared tail of the copy and description constructor paths of
`lattice.__init__`: allocate fresh storage, record the field in the memory
book, then apply `self.checkerboard(cb)`. -/
def alloc_with_cb (g : Grid) (ot : OType) (cb : CB) (s : GState) : Option (Lattice × GState) :=
  let r := create_lattices g.obj g.precision ot.v_otype s.engine
  let lat : Lattice := ⟨g, ot, r.1⟩
  let s1 : GState :=
    { engine := r.2,
      mem_book := fun k => if k = primary lat then some (g, ot, s.time) else s.mem_book k,
      time := s.time + 1 }
  (checkerboard_set lat cb s1).map (fun s2 => (lat, s2))

/-- The copy-constructor path of `lattice.__init__` (`first` a lattice):
same grid and otype, fresh storage, checkerboard read from `first`; contents
are not copied. -/
def lattice_copy (a : Lattice) (s : GState) : Option (Lattice × GState) :=
  (checkerboard_query a s).bind (fun cb => alloc_with_cb a.grid a.otype cb s)

/-- Python single-character `str.split`, on lists of characters. -/
def pySplit (sep : Char) : List Char → List (List Char)
  | [] => [[]]
  | c :: cs =>
    if c = sep then [] :: pySplit sep cs
    else
      match pySplit sep cs with
      | [] => [[c]]
      | r :: rs => (c :: r) :: rs

/-- Modelled from the spec: `gpt.str_to_cb` (outside the excerpted sources)
decodes a checkerboard name. -/
def str_to_cb (p : List Char) : Option CB :=
  if p = CB.none.pyname then some CB.none
  else if p = CB.even.pyname then some CB.even
  else if p = CB.odd.pyname then some CB.odd
  else Option.none

/-- The description constructor path of `lattice.__init__` (`second` a
string): split on a semicolon, decode the otype through the registry `reg`
(modelled from the spec: `gpt.str_to_otype` is outside the excerpted
sources) and the checkerboard through `str_to_cb`, then allocate and apply
the checkerboard. -/
def lattice_init_desc (g : Grid) (reg : List Char → Option OType) (desc : List Char)
    (s : GState) : Option (Lattice × GState) :=
  match pySplit ';' desc with
  | p0 :: p1 :: _ =>
    match reg p0, str_to_cb p1 with
    | some ot, some cb => alloc_with_cb g ot cb s
    | _, _ => Option.none
  | _ => Option.none

/-- `lattice.describe()`: otype name, a semicolon, checkerboard name; fails
(is `Option.none`) only when the checkerboard query itself asserts. -/
def lattice_describe (lat : Lattice) (s : GState) : Option (List Char) :=
  (checkerboard_query lat s).map (fun cb => lat.otype.name ++ [';'] ++ cb.pyname)

/-- `lattice.global_bytes()`. -/
def global_bytes (lat : Lattice) : Nat :=
  lat.otype.nfloats * lat.grid.gsites * lat.grid.precision.nbytes

/-- `lattice.rank_bytes()`: floor division as in Python `//`. -/
def rank_bytes (lat : Lattice) : Nat :=
  global_bytes lat / lat.grid.Nprocessors

/-- `lattice.__del__`: remove the memory-book entry of the first handle and
free every sub-object handle. -/
def lattice_del (lat : Lattice) (s : GState) : GState :=
  { s with
    mem_book := fun k => if k = primary lat then Option.none else s.mem_book k,
    engine := lat.v_obj.foldl (fun e o => delete_lattice o e) s.engine }

/-- A spatial position (coordinate tuple). -/
abbrev Pos := List Nat

/-- A tensor sub-index (index tuple into the per-site tensor). -/
abbrev Tidx := List Nat

/-- The logical content of a field in the content layer: the value stored at
each (position, tensor sub-index) pair. -/
abbrev Content := Pos → Tidx → Int

/-- The content-layer view of a field: its grid dimensions, its per-site
tensor shape (`otype.shape`), and its logical content (the union of the
sub-object storages, modelled as one map since the sub-object decomposition
is opaque engine layout). -/
structure BLattice where
  dims : List Nat
  shape : List Nat
  content : Content

/-- All index tuples of a given shape, in row-major order. -/
def coordsOf : List Nat → List (List Nat)
  | [] => [[]]
  | d :: ds => (List.range d).flatMap (fun x => (coordsOf ds).map (fun r => x :: r))

/-- Modelled from the spec: the enumeration order of a lattice view built
from resolved `(pos, tidx)` (the view constructors are outside the excerpted
sources): one access point per requested element, position-major, matching
the C-order host buffer of shape `(len(pos), *shape)`. -/
def accessList (pos : List Pos) (tidx : List Tidx) : List (Pos × Tidx) :=
  pos.flatMap (fun p => tidx.map (fun t => (p, t)))

/-- Modelled from the spec: execution of a compiled copy plan whose
destination is a field view and whose source is a host buffer — the paired
copy instructions are applied in view order, each writing one element. -/
def applyWrites (c : Content) (instrs : List ((Pos × Tidx) × Int)) : Content :=
  instrs.foldl (fun acc ins => fun p t => if (p, t) = ins.1 then ins.2 else acc p t) c

/-- Modelled from the spec: execution of a compiled copy plan whose
destination is a host buffer and whose source is a field view — gather the
field's elements in view order. -/
def readResolved (c : Content) (pos : List Pos) (tidx : List Tidx) : List Int :=
  (accessList pos tidx).map (fun q => c q.1 q.2)

/-- Modelled from the spec: `cgpt.copy_cyclic_upscale(value, n)` (the engine
call is outside the excerpted sources): a value shorter than the required
length is replicated cyclically to exactly that length; an already long
enough value is returned unchanged.  Lengths are counted in elements here
(the source counts bytes, with the factor for the complex dtype). -/
def copy_cyclic_upscale (v : List Int) (n : Nat) : List Int :=
  if v.length < n then (List.range n).map (fun i => v.getD (i % v.length) 0) else v

/-- An element-access key, after the dynamic dispatch of `gpt.map_key`
(outside the excerpted sources) has been abstracted: either the full slice
`lat[:]` or an already resolved (positions, tensor-indices, shape) triple. -/
inductive LKey where
  | fullSlice : LKey
  | subset : List Pos → List Tidx → List Nat → LKey
deriving DecidableEq

/-- A right-hand side of an assignment: the Python `int` literal or an
explicit value buffer (flattened, row-major). -/
inductive SetVal where
  | int : Int → SetVal
  | arr : List Int → SetVal
deriving DecidableEq

/-- Modelled from the spec: `gpt.map_key` (outside the excerpted sources)
resolves a key into (positions, tensor sub-indices, shape); the full slice
resolves to every coordinate, every tensor sub-index and the full per-site
shape. -/
def map_key (lat : BLattice) : LKey → List Pos × List Tidx × List Nat
  | LKey.fullSlice => (coordsOf lat.dims, coordsOf lat.shape, lat.shape)
  | LKey.subset pos tidx shape => (pos, tidx, shape)

/-- `gpt.util.tensor_to_value` restricted to the modelled right-hand sides:
a scalar becomes a one-element buffer. -/
def tensor_to_value : SetVal → List Int
  | SetVal.int n => [n]
  | SetVal.arr vs => vs

/-- `lattice.__setitem__`: the fast path recognizes the full slice assigned
the literal integer zero and bulk-zeroes the storage; the general path
resolves the key, normalizes and cyclically upscales the value to the
required length `len(pos) * prod(shape)` (elements), and executes a copy
plan pairing the field view with the host buffer. -/
def lattice_setitem (lat : BLattice) (k : LKey) (v : SetVal) : BLattice :=
  if k = LKey.fullSlice ∧ v = SetVal.int 0 then
    { lat with content := fun _ _ => 0 }
  else
    let r := map_key lat k
    let pos := r.1
    let tidx := r.2.1
    let shape := r.2.2
    let vs := tensor_to_value v
    let needed := pos.length * shape.prod
    let vs := copy_cyclic_upscale vs needed
    { lat with content := applyWrites lat.content ((accessList pos tidx).zip vs) }

/-- The result of `lattice.__getitem__`: either a single per-site tensor
(unwrapped) or the host array of shape `(len(pos), *shape)` (kept flattened
here, with its dimensions recorded). -/
inductive ReadResult where
  | tensor : List Int → ReadResult
  | array : Nat → List Nat → List Int → ReadResult
deriving DecidableEq

/-- The raw element data carried by a read result. -/
def ReadResult.data : ReadResult → List Int
  | ReadResult.tensor v => v
  | ReadResult.array _ _ v => v

/-- `lattice.__getitem__`: resolve the key, gather through a copy plan into a
host buffer, and unwrap the buffer into a single tensor exactly when one
position was requested and the resolved shape is the full per-site shape. -/
def lattice_getitem (lat : BLattice) (k : LKey) : ReadResult :=
  let r := map_key lat k
  let pos := r.1
  let tidx := r.2.1
  let shape := r.2.2
  let value := readResolved lat.content pos tidx
  if pos.length = 1 ∧ shape = lat.shape then ReadResult.tensor value
  else ReadResult.array pos.length shape value

/-- Sample precision for concrete instantiations. -/
def prec0 : Precision := ⟨8⟩

/-- Sample otype with one sub-object, two floats per site, scalar shape. -/
def ot0 : OType := ⟨['o', 't'], [['v']], 2, [1]⟩

/-- Sample grid without checkerboarding (parity arity 1). -/
def grid1 : Grid := ⟨0, [4, 4], prec0, 16, 2, 0, ⟨1⟩⟩

/-- Sample grid with an even/odd checkerboard split (parity arity 2). -/
def grid2 : Grid := ⟨1, [4, 4], prec0, 16, 2, 0, ⟨2⟩⟩

/-- Empty engine: no allocations yet, fresh content constantly 7. -/
def engine0 : EngineState := ⟨0, fun _ => Option.none, fun _ => 0, fun _ _ => 7⟩

/-- Empty process state. -/
def gs0 : GState := ⟨engine0, fun _ => Option.none, 0⟩

/-- A field constructed on the non-checkerboarded sample grid. -/
def initA : Lattice × GState := lattice_init grid1 ot0 gs0

/-- A field constructed on the checkerboarded sample grid. -/
def initB : Lattice × GState := lattice_init grid2 ot0 gs0

/-- Sample otype registry, mapping the sample otype's name back to it. -/
def reg0 : List Char → Option OType :=
  fun n => if n = ot0.name then some ot0 else Option.none

/-- Sample content-layer field: a 2-site line of 2-component vectors, all 3. -/
def blat0 : BLattice := ⟨[2], [2], fun _ _ => 3⟩

/-- The allocation loop returns the handles `nextHandle, …, nextHandle+k-1`,
advances `nextHandle`, leaves free counts, the fresh-content function and
older allocations untouched, and fills each new handle with an even-tagged
allocation holding the implementation-defined fresh content. -/
theorem create_lattices_spec (gobj : Nat) (prec : Precision) (ts : List (List Char))
    (e : EngineState) :
    (create_lattices gobj prec ts e).1 = List.range' e.nextHandle ts.length ∧
    (create_lattices gobj prec ts e).2.nextHandle = e.nextHandle + ts.length ∧
    (create_lattices gobj prec ts e).2.freeCalls = e.freeCalls ∧
    (create_lattices gobj prec ts e).2.fresh = e.fresh ∧
    (∀ h ∈ (create_lattices gobj prec ts e).1,
        (create_lattices gobj prec ts e).2.storages h = some ⟨CB.even.tag, e.fresh h⟩) ∧
    (∀ h, h < e.nextHandle → (create_lattices gobj prec ts e).2.storages h = e.storages h) := by
  induction ts generalizing e with
  | nil => simp [create_lattices]
  | cons t ts ih =>
    obtain ⟨ih1, ih2, ih3, ih4, ih5, ih6⟩ := ih (create_lattice gobj t prec e).2
    have hunf1 : (create_lattices gobj prec (t :: ts) e).1
        = (create_lattice gobj t prec e).1
          :: (create_lattices gobj prec ts (create_lattice gobj t prec e).2).1 := rfl
    have hunf2 : (create_lattices gobj prec (t :: ts) e).2
        = (create_lattices gobj prec ts (create_lattice gobj t prec e).2).2 := rfl
    refine ⟨?_, ?_, ?_, ?_, ?_, ?_⟩
    · rw [hunf1, ih1]
      rfl
    · rw [hunf2, ih2]
      show e.nextHandle + 1 + ts.length = _
      simp
      omega
    · rw [hunf2, ih3]
      rfl
    · rw [hunf2, ih4]
      rfl
    · intro h hmem
      rw [hunf1] at hmem
      rw [hunf2]
      rcases List.mem_cons.mp hmem with he | hm
      · have hh : h = e.nextHandle := he
        have hlt : h < (create_lattice gobj t prec e).2.nextHandle := by
          show h < e.nextHandle + 1
          omega
        rw [ih6 h hlt]
        simp [create_lattice, hh]
      · rw [ih5 h hm]
        rfl
    · intro h hlt
      have hne : h ≠ e.nextHandle := by omega
      have hlt2 : h < (create_lattice gobj t prec e).2.nextHandle := by
        show h < e.nextHandle + 1
        omega
      rw [hunf2, ih6 h hlt2]
      simp [create_lattice, hne]

/-- Folding engine frees over a handle list adds one free call per occurrence
of a handle in the list. -/
theorem fold_delete_freeCalls (l : List Nat) (e : EngineState) (h : Nat) :
    (l.foldl (fun e o => delete_lattice o e) e).freeCalls h = e.freeCalls h + l.count h := by
  induction l generalizing e with
  | nil => simp
  | cons o l ih =>
    rw [List.foldl_cons, ih]
    simp only [delete_lattice, List.count_cons]
    by_cases hh : h = o
    · simp [hh]
      omega
    · simp [hh, Ne.symm hh]

/-- Folding engine frees over a handle list removes exactly the listed
allocations. -/
theorem fold_delete_storages (l : List Nat) (e : EngineState) (h : Nat) :
    (l.foldl (fun e o => delete_lattice o e) e).storages h
      = if h ∈ l then Option.none else e.storages h := by
  induction l generalizing e with
  | nil => simp
  | cons o l ih =>
    rw [List.foldl_cons, ih]
    by_cases hl : h ∈ l
    · simp [hl]
    · by_cases ho : h = o <;> simp [delete_lattice, hl, ho]

/-- Folding engine parity retags over a handle list retags exactly the
listed allocations. -/
theorem fold_change_storages (l : List Nat) (tag : Nat) (e : EngineState) (h : Nat) :
    (l.foldl (fun e o => lattice_change_checkerboard o tag e) e).storages h
      = if h ∈ l then (e.storages h).map (fun st => { st with cbTag := tag })
        else e.storages h := by
  induction l generalizing e with
  | nil => simp
  | cons o l ih =>
    rw [List.foldl_cons, ih]
    by_cases hl : h ∈ l
    · by_cases ho : h = o
      · subst ho
        rw [if_pos hl, if_pos (List.mem_cons_self h l)]
        simp only [lattice_change_checkerboard, if_pos rfl, Option.map_map]
        cases e.storages h <;> rfl
      · simp [lattice_change_checkerboard, hl, ho]
    · by_cases ho : h = o
      · subst ho
        simp [lattice_change_checkerboard, hl]
      · simp [lattice_change_checkerboard, hl, ho]

/-- Executing one more copy instruction first folds it into the base
content. -/
theorem applyWrites_cons (c : Content) (i : (Pos × Tidx) × Int)
    (l : List ((Pos × Tidx) × Int)) :
    applyWrites c (i :: l) = applyWrites (fun p t => if (p, t) = i.1 then i.2 else c p t) l :=
  rfl

/-- A location no copy instruction targets keeps its base content. -/
theorem applyWrites_not_mem (c : Content) (l : List ((Pos × Tidx) × Int)) (p : Pos) (t : Tidx)
    (h : (p, t) ∉ l.map Prod.fst) : applyWrites c l p t = c p t := by
  induction l generalizing c with
  | nil => rfl
  | cons i l ih =>
    have h1 : (p, t) ≠ i.1 := fun he => h (by simp [he])
    have h2 : (p, t) ∉ l.map Prod.fst := fun hm => h (by simp [hm])
    rw [applyWrites_cons, ih _ h2]
    simp [h1]

/-- Scatter/gather round trip: writing a buffer to pairwise-distinct
locations and reading those locations back in the same order returns the
buffer. -/
theorem gather_scatter (ps : List (Pos × Tidx)) (c : Content) (vs : List Int)
    (hnd : ps.Nodup) (hlen : vs.length = ps.length) :
    ps.map (fun q => applyWrites c (ps.zip vs) q.1 q.2) = vs := by
  induction ps generalizing c vs with
  | nil =>
    have : vs = [] := List.length_eq_zero.mp (by simpa using hlen)
    simp [this]
  | cons q ps ih =>
    cases vs with
    | nil => simp at hlen
    | cons v vs =>
      have hq : q ∉ ps := (List.nodup_cons.mp hnd).1
      have hnd2 : ps.Nodup := (List.nodup_cons.mp hnd).2
      have hlen2 : vs.length = ps.length := by simpa using hlen
      simp only [List.zip_cons_cons, List.map_cons, applyWrites_cons]
      have hmem : (q.1, q.2) ∉ (ps.zip vs).map Prod.fst := by
        rw [List.map_fst_zip ps vs (by omega)]
        simpa [Prod.mk.eta] using hq
      rw [applyWrites_not_mem _ _ _ _ hmem, ih _ _ hnd2 hlen2]
      simp

/-- A location targeted only by zero-valued copy instructions reads zero. -/
theorem applyWrites_zero_mem (c : Content) (l : List ((Pos × Tidx) × Int)) (p : Pos) (t : Tidx)
    (hm : (p, t) ∈ l.map Prod.fst) (hz : ∀ i ∈ l, i.2 = 0) :
    applyWrites c l p t = 0 := by
  induction l generalizing c with
  | nil => simp at hm
  | cons i l ih =>
    rw [applyWrites_cons]
    by_cases h2 : (p, t) ∈ l.map Prod.fst
    · exact ih _ h2 (fun j hj => hz j (List.mem_cons_of_mem _ hj))
    · have he : (p, t) = i.1 := by
        rw [List.map_cons] at hm
        rcases List.mem_cons.mp hm with he | hm2
        · exact he
        · exact absurd hm2 h2
      rw [applyWrites_not_mem _ _ _ _ h2]
      rw [if_pos he, hz i (List.mem_cons_self _ _)]

/-- The view of a resolved key enumerates `len(pos) * len(tidx)` access
points. -/
theorem accessList_length (pos : List Pos) (tidx : List Tidx) :
    (accessList pos tidx).length = pos.length * tidx.length := by
  induction pos with
  | nil => simp [accessList]
  | cons p pos ih =>
    simp only [accessList] at ih ⊢
    rw [List.flatMap_cons, List.length_append, List.length_map, ih, List.length_cons]
    ring

/-- Every requested (position, tensor-index) pair appears in the view. -/
theorem mem_accessList (pos : List Pos) (tidx : List Tidx) (p : Pos) (t : Tidx)
    (hp : p ∈ pos) (ht : t ∈ tidx) : (p, t) ∈ accessList pos tidx := by
  rw [accessList, List.mem_flatMap]
  exact ⟨p, hp, List.mem_map.mpr ⟨t, ht, rfl⟩⟩

/-- The full index enumeration of a shape has the shape's element count. -/
theorem coordsOf_length (l : List Nat) : (coordsOf l).length = l.prod := by
  induction l with
  | nil => rfl
  | cons d ds ih =>
    rw [coordsOf, List.length_flatMap]
    simp [Function.comp_def, ih, List.map_const', List.sum_replicate]

/-- Specification of the shared constructor tail: allocation succeeds
whenever the requested checkerboard is legal for the grid, the new field
carries the requested grid/otype, fresh consecutive handles, a fresh
memory-book entry, engine-fresh contents, and the requested parity. -/
theorem alloc_with_cb_spec (g : Grid) (ot : OType) (cb : CB) (s : GState)
    (hne : ot.v_otype ≠ [])
    (hok : cb ≠ CB.none → g.cb.n ≠ 1) :
    ∃ lat s2, alloc_with_cb g ot cb s = some (lat, s2) ∧
      lat.grid = g ∧ lat.otype = ot ∧
      lat.v_obj = List.range' s.engine.nextHandle ot.v_otype.length ∧
      s2.mem_book (primary lat) = some (g, ot, s.time) ∧
      (∀ k2, k2 ≠ primary lat → s2.mem_book k2 = s.mem_book k2) ∧
      (∀ h ∈ lat.v_obj, ∃ st, s2.engine.storages h = some st ∧
          st.content = s.engine.fresh h ∧
          st.cbTag = (if cb = CB.none then CB.even.tag else cb.tag)) ∧
      (g.cb.n = 1 → checkerboard_query lat s2 = some CB.none) ∧
      (cb ≠ CB.none → checkerboard_query lat s2 = some cb) := by
  obtain ⟨c1, c2, c3, c4, c5, c6⟩ := create_lattices_spec g.obj g.precision ot.v_otype s.engine
  obtain ⟨k, hk⟩ : ∃ k, ot.v_otype.length = k + 1 := by
    cases hv : ot.v_otype with
    | nil => exact absurd hv hne
    | cons a l => exact ⟨l.length, rfl⟩
  set lat : Lattice := ⟨g, ot, (create_lattices g.obj g.precision ot.v_otype s.engine).1⟩
    with hlat
  have hvobj : lat.v_obj = List.range' s.engine.nextHandle ot.v_otype.length := c1
  have hprim : primary lat = s.engine.nextHandle := by
    show lat.v_obj.headD 0 = _
    rw [hvobj, hk]
    rfl
  have hprimmem : primary lat ∈ lat.v_obj := by
    rw [hvobj, hk, hprim]
    exact List.mem_cons_self _ _
  set s1 : GState :=
    ⟨(create_lattices g.obj g.precision ot.v_otype s.engine).2,
     fun k2 => if k2 = primary lat then some (g, ot, s.time) else s.mem_book k2,
     s.time + 1⟩ with hs1
  by_cases hcb : cb = CB.none
  · subst hcb
    refine ⟨lat, s1, ?_, rfl, rfl, hvobj, ?_, ?_, ?_, ?_, ?_⟩
    · show (checkerboard_set lat CB.none s1).map (fun s2 => (lat, s2)) = some (lat, s1)
      rw [show checkerboard_set lat CB.none s1 = some s1 from by simp [checkerboard_set]]
      rfl
    · show (if primary lat = primary lat then some (g, ot, s.time) else _) = _
      rw [if_pos rfl]
    · intro k2 hk2
      show (if k2 = primary lat then _ else s.mem_book k2) = _
      rw [if_neg hk2]
    · intro h hm
      refine ⟨⟨CB.even.tag, s.engine.fresh h⟩, c5 h hm, rfl, ?_⟩
      rw [if_pos rfl]
    · intro h1
      unfold checkerboard_query
      rw [if_pos (show lat.grid.cb.n = 1 from h1)]
    · intro hne2
      exact absurd rfl hne2
  · have hn : g.cb.n ≠ 1 := hok hcb
    refine ⟨lat,
      { s1 with
        engine := lat.v_obj.foldl (fun e o => lattice_change_checkerboard o cb.tag e) s1.engine },
      ?_, rfl, rfl, hvobj, ?_, ?_, ?_, ?_, ?_⟩
    · show (checkerboard_set lat cb s1).map (fun s2 => (lat, s2)) = _
      rw [show checkerboard_set lat cb s1
            = some { s1 with
                engine := lat.v_obj.foldl
                  (fun e o => lattice_change_checkerboard o cb.tag e) s1.engine } from by
        unfold checkerboard_set
        rw [if_pos hcb, if_neg (show ¬lat.grid.cb.n = 1 from hn)]]
      rfl
    · show (if primary lat = primary lat then some (g, ot, s.time) else _) = _
      rw [if_pos rfl]
    · intro k2 hk2
      show (if k2 = primary lat then _ else s.mem_book k2) = _
      rw [if_neg hk2]
    · intro h hm
      refine ⟨⟨cb.tag, s.engine.fresh h⟩, ?_, rfl, ?_⟩
      · show (lat.v_obj.foldl (fun e o => lattice_change_checkerboard o cb.tag e)
            s1.engine).storages h = _
        rw [fold_change_storages, if_pos hm, c5 h hm]
        rfl
      · rw [if_neg hcb]
    · intro h1
      exact absurd h1 hn
    · intro _
      have hst : (lat.v_obj.foldl (fun e o => lattice_change_checkerboard o cb.tag e)
          s1.engine).storages (primary lat)
          = some ⟨cb.tag, s.engine.fresh (primary lat)⟩ := by
        rw [fold_change_storages, if_pos hprimmem, c5 _ hprimmem]
        rfl
      unfold checkerboard_query
      rw [if_neg (show ¬lat.grid.cb.n = 1 from hn)]
      show (if lattice_get_checkerboard (primary lat) _ = CB.even.tag then some CB.even
        else if lattice_get_checkerboard (primary lat) _ = CB.odd.tag then some CB.odd
        else Option.none) = some cb
      unfold lattice_get_checkerboard
      rw [hst]
      cases cb with
      | none => exact absurd rfl hcb
      | even => rfl
      | odd => rfl

/-- C2: on a grid of checkerboard arity 1 the checkerboard query always
returns NONE and setting a real parity fails with an assertion; on a grid of
arity 2 setting a real parity succeeds and retags every storage handle of
the field to that parity. -/
theorem checkerboard_contract (lat : Lattice) (s : GState) (v : CB) :
    (lat.grid.cb.n = 1 → checkerboard_query lat s = some CB.none) ∧
    (lat.grid.cb.n = 1 → v ≠ CB.none → checkerboard_set lat v s = Option.none) ∧
    (lat.grid.cb.n = 2 → v ≠ CB.none →
      ∃ s2, checkerboard_set lat v s = some s2 ∧
        ∀ h ∈ lat.v_obj,
          s2.engine.storages h
            = (s.engine.storages h).map (fun st => { st with cbTag := v.tag })) := by
  refine ⟨?_, ?_, ?_⟩
  · intro h1
    unfold checkerboard_query
    rw [if_pos h1]
  · intro h1 hv
    unfold checkerboard_set
    rw [if_pos hv, if_pos h1]
  · intro h2 hv
    refine ⟨{ s with
      engine := lat.v_obj.foldl (fun e o => lattice_change_checkerboard o v.tag e) s.engine },
      ?_, ?_⟩
    · unfold checkerboard_set
      rw [if_pos hv, if_neg (show ¬lat.grid.cb.n = 1 by omega)]
    · intro h hm
      show (lat.v_obj.foldl (fun e o => lattice_change_checkerboard o v.tag e)
          s.engine).storages h = _
      rw [fold_change_storages, if_pos hm]

/-- Witness for C2 at concrete fields on an arity-1 and an arity-2 grid. -/
theorem checkerboard_contract_witness :
    checkerboard_query initA.1 initA.2 = some CB.none ∧
    checkerboard_set initA.1 CB.even initA.2 = Option.none ∧
    (∃ s2, checkerboard_set initB.1 CB.odd initB.2 = some s2 ∧
      ∀ h ∈ initB.1.v_obj,
        s2.engine.storages h
          = (initB.2.engine.storages h).map (fun st => { st with cbTag := CB.odd.tag })) :=
  ⟨(checkerboard_contract initA.1 initA.2 CB.even).1 rfl,
   (checkerboard_contract initA.1 initA.2 CB.even).2.1 rfl (by decide),
   (checkerboard_contract initB.1 initB.2 CB.odd).2.2 rfl (by decide)⟩

/-- C10: setting the checkerboard value NONE succeeds on every grid and
returns the state unchanged: a silent no-op that makes no engine call, so it
cannot clear a previously set real parity. -/
theorem checkerboard_none_noop (lat : Lattice) (s : GState) :
    checkerboard_set lat CB.none s = some s := by
  unfold checkerboard_set
  simp

/-- C5: byte accounting: global_bytes is exactly the per-site element count
times the global site count times the precision byte width, rank_bytes is
its floor quotient by the process count, and under an even partition the
division is exact (rank_bytes times the process count restores
global_bytes). -/
theorem bytes_accounting (lat : Lattice)
    (hP : 0 < lat.grid.Nprocessors)
    (hdvd : lat.grid.Nprocessors ∣ lat.grid.gsites) :
    global_bytes lat = lat.otype.nfloats * lat.grid.gsites * lat.grid.precision.nbytes ∧
    rank_bytes lat
      = lat.otype.nfloats * lat.grid.gsites * lat.grid.precision.nbytes
        / lat.grid.Nprocessors ∧
    rank_bytes lat * lat.grid.Nprocessors = global_bytes lat := by
  refine ⟨rfl, rfl, ?_⟩
  have hd2 : lat.grid.Nprocessors ∣ global_bytes lat :=
    Dvd.dvd.mul_right (Dvd.dvd.mul_left hdvd lat.otype.nfloats) lat.grid.precision.nbytes
  exact Nat.div_mul_cancel hd2

/-- Witness for C5 at a concrete field with 16 sites over 2 processes. -/
theorem bytes_accounting_witness :
    0 < initA.1.grid.Nprocessors ∧
    initA.1.grid.Nprocessors ∣ initA.1.grid.gsites ∧
    (global_bytes initA.1
        = initA.1.otype.nfloats * initA.1.grid.gsites * initA.1.grid.precision.nbytes ∧
     rank_bytes initA.1
        = initA.1.otype.nfloats * initA.1.grid.gsites * initA.1.grid.precision.nbytes
          / initA.1.grid.Nprocessors ∧
     rank_bytes initA.1 * initA.1.grid.Nprocessors = global_bytes initA.1) :=
  ⟨by decide, by decide, bytes_accounting initA.1 (by decide) (by decide)⟩

/-- C9: registry lifecycle: construction inserts one entry keyed by the
primary storage handle valued (grid, otype, creation time); destruction
removes exactly that entry (and no other) and frees every sub-object handle
exactly once. -/
theorem mem_book_lifecycle (g : Grid) (ot : OType) (s : GState) (lat : Lattice) (s1 : GState)
    (hne : ot.v_otype ≠ [])
    (hinit : lattice_init g ot s = (lat, s1)) :
    s1.mem_book (primary lat) = some (g, ot, s.time) ∧
    (lattice_del lat s1).mem_book (primary lat) = Option.none ∧
    (∀ h ∈ lat.v_obj, (lattice_del lat s1).engine.freeCalls h = s.engine.freeCalls h + 1) ∧
    (∀ k, k ≠ primary lat → (lattice_del lat s1).mem_book k = s1.mem_book k) := by
  have hlat : lat = (lattice_init g ot s).1 := by rw [hinit]
  have hs1 : s1 = (lattice_init g ot s).2 := by rw [hinit]
  subst hlat
  subst hs1
  obtain ⟨c1, c2, c3, c4, c5, c6⟩ := create_lattices_spec g.obj g.precision ot.v_otype s.engine
  refine ⟨?_, ?_, ?_, ?_⟩
  · show (if primary (lattice_init g ot s).1 = primary (lattice_init g ot s).1
        then some (g, ot, s.time) else s.mem_book _) = _
    rw [if_pos rfl]
  · show (if primary (lattice_init g ot s).1 = primary (lattice_init g ot s).1
        then Option.none else _) = _
    rw [if_pos rfl]
  · intro h hm
    show ((lattice_init g ot s).1.v_obj.foldl (fun e o => delete_lattice o e)
        (lattice_init g ot s).2.engine).freeCalls h = _
    rw [fold_delete_freeCalls]
    have hnd : (lattice_init g ot s).1.v_obj.Nodup := by
      show (create_lattices g.obj g.precision ot.v_otype s.engine).1.Nodup
      rw [c1]
      exact List.nodup_range' _ _
    have hcount : (lattice_init g ot s).1.v_obj.count h = 1 :=
      List.count_eq_one_of_mem hnd hm
    have hfc : (lattice_init g ot s).2.engine.freeCalls h = s.engine.freeCalls h := by
      show (create_lattices g.obj g.precision ot.v_otype s.engine).2.freeCalls h = _
      rw [c3]
    rw [hfc, hcount]
  · intro k hk
    show (if k = primary (lattice_init g ot s).1 then Option.none else _) = _
    rw [if_neg hk]

/-- A successful checkerboard query forces consistency between the grid's
parity arity and the returned value: arity 1 yields NONE, any other arity
yields a real parity. -/
theorem query_cases (lat : Lattice) (s : GState) (cb : CB)
    (hq : checkerboard_query lat s = some cb) :
    (lat.grid.cb.n = 1 ∧ cb = CB.none) ∨ (lat.grid.cb.n ≠ 1 ∧ cb ≠ CB.none) := by
  by_cases h1 : lat.grid.cb.n = 1
  · left
    refine ⟨h1, ?_⟩
    unfold checkerboard_query at hq
    rw [if_pos h1] at hq
    exact (Option.some.inj hq).symm
  · right
    refine ⟨h1, ?_⟩
    intro he
    subst he
    simp only [checkerboard_query, h1, if_false] at hq
    split_ifs at hq with hc1 hc2
    · exact absurd (Option.some.inj hq) (by decide)
    · exact absurd (Option.some.inj hq) (by decide)

/-- Splitting a separator-free prefix followed by the separator peels off the
prefix. -/
theorem pySplit_append (sep : Char) (a b : List Char) (ha : sep ∉ a) :
    pySplit sep (a ++ sep :: b) = a :: pySplit sep b := by
  induction a with
  | nil => simp [pySplit]
  | cons c a ih =>
    have hc : c ≠ sep := fun he => ha (by simp [he])
    have ha2 : sep ∉ a := fun hm => ha (by simp [hm])
    simp only [List.cons_append, pySplit, if_neg hc]
    rw [show pySplit sep (a.append (sep :: b)) = a :: pySplit sep b from ih ha2]

/-- Splitting a separator-free string yields that string alone. -/
theorem pySplit_no_sep (sep : Char) (b : List Char) (hb : sep ∉ b) :
    pySplit sep b = [b] := by
  induction b with
  | nil => rfl
  | cons c b ih =>
    have hc : c ≠ sep := fun he => hb (by simp [he])
    have hb2 : sep ∉ b := fun hm => hb (by simp [hm])
    simp only [pySplit, if_neg hc, ih hb2]

/-- The checkerboard-name decoder inverts the checkerboard names. -/
theorem str_to_cb_pyname (cb : CB) : str_to_cb cb.pyname = some cb := by
  cases cb <;> rfl

/-- Checkerboard names contain no semicolon. -/
theorem pyname_no_semi (cb : CB) : ';' ∉ cb.pyname := by
  cases cb <;> decide

/-- Witness for C9 at a concrete construction and destruction. -/
theorem mem_book_lifecycle_witness :
    ot0.v_otype ≠ [] ∧
    (initA.2.mem_book (primary initA.1) = some (grid1, ot0, gs0.time) ∧
     (lattice_del initA.1 initA.2).mem_book (primary initA.1) = Option.none ∧
     (∀ h ∈ initA.1.v_obj,
        (lattice_del initA.1 initA.2).engine.freeCalls h = gs0.engine.freeCalls h + 1) ∧
     (∀ k, k ≠ primary initA.1 →
        (lattice_del initA.1 initA.2).mem_book k = initA.2.mem_book k)) :=
  ⟨by decide, mem_book_lifecycle grid1 ot0 gs0 initA.1 initA.2 (by decide) rfl⟩

/-- C4: the shape-only copy yields a field with the same grid, otype and
checkerboard as the original, backed by freshly allocated storage handles
(one per otype sub-object, none shared with the original field), whose
contents come from the engine's fresh allocation, not from the original. -/
theorem shape_copy (a : Lattice) (s : GState) (cb : CB)
    (hq : checkerboard_query a s = some cb)
    (hne : a.otype.v_otype ≠ [])
    (hold : ∀ h ∈ a.v_obj, h < s.engine.nextHandle) :
    ∃ b s2, lattice_copy a s = some (b, s2) ∧
      b.grid = a.grid ∧ b.otype = a.otype ∧
      checkerboard_query b s2 = some cb ∧
      b.v_obj.length = a.otype.v_otype.length ∧
      (∀ h ∈ b.v_obj, h ∉ a.v_obj) ∧
      (∀ h ∈ b.v_obj, ∃ st, s2.engine.storages h = some st ∧
          st.content = s.engine.fresh h) := by
  have hok : cb ≠ CB.none → a.grid.cb.n ≠ 1 := by
    intro hcb
    rcases query_cases a s cb hq with ⟨_, hc⟩ | ⟨hn, _⟩
    · exact absurd hc hcb
    · exact hn
  obtain ⟨b, s2, h1, h2, h3, h4, h5, h6, h7, h8, h9⟩ :=
    alloc_with_cb_spec a.grid a.otype cb s hne hok
  refine ⟨b, s2, ?_, h2, h3, ?_, ?_, ?_, ?_⟩
  · unfold lattice_copy
    rw [hq]
    exact h1
  · rcases query_cases a s cb hq with ⟨hg1, hc⟩ | ⟨hg1, hc⟩
    · rw [hc]
      exact h8 hg1
    · exact h9 hc
  · rw [h4, List.length_range']
  · intro h hm hmem
    rw [h4] at hm
    have hge := (List.mem_range'_1.mp hm).1
    have hlt := hold h hmem
    omega
  · intro h hm
    obtain ⟨st, hs, hc, _⟩ := h7 h hm
    exact ⟨st, hs, hc⟩

/-- Witness for C4 at a concrete field on the checkerboarded grid. -/
theorem shape_copy_witness :
    checkerboard_query initB.1 initB.2 = some CB.even ∧
    (∃ b s2, lattice_copy initB.1 initB.2 = some (b, s2) ∧
      b.grid = initB.1.grid ∧ b.otype = initB.1.otype ∧
      checkerboard_query b s2 = some CB.even ∧
      b.v_obj.length = initB.1.otype.v_otype.length ∧
      (∀ h ∈ b.v_obj, h ∉ initB.1.v_obj) ∧
      (∀ h ∈ b.v_obj, ∃ st, s2.engine.storages h = some st ∧
          st.content = initB.2.engine.fresh h)) :=
  ⟨by decide, shape_copy initB.1 initB.2 CB.even (by decide) (by decide) (by decide)⟩

/-- C6: describe yields the otype name and checkerboard name joined by a
semicolon, whitespace-free whenever the otype name is, and constructing a
new lattice from the same grid and that string round-trips the otype and
the checkerboard value. -/
theorem describe_roundtrip (lat : Lattice) (s : GState) (cb : CB)
    (reg : List Char → Option OType)
    (hq : checkerboard_query lat s = some cb)
    (hreg : reg lat.otype.name = some lat.otype)
    (hsemi : ';' ∉ lat.otype.name)
    (hws : ∀ c ∈ lat.otype.name, c.isWhitespace = false)
    (hne : lat.otype.v_otype ≠ []) :
    lattice_describe lat s = some (lat.otype.name ++ [';'] ++ cb.pyname) ∧
    (∀ c ∈ lat.otype.name ++ [';'] ++ cb.pyname, c.isWhitespace = false) ∧
    (∃ lat2 s2,
      lattice_init_desc lat.grid reg (lat.otype.name ++ [';'] ++ cb.pyname) s
        = some (lat2, s2) ∧
      lat2.otype = lat.otype ∧ checkerboard_query lat2 s2 = some cb) := by
  have hok : cb ≠ CB.none → lat.grid.cb.n ≠ 1 := by
    intro hcb
    rcases query_cases lat s cb hq with ⟨_, hc⟩ | ⟨hn, _⟩
    · exact absurd hc hcb
    · exact hn
  refine ⟨?_, ?_, ?_⟩
  · unfold lattice_describe
    rw [hq]
    rfl
  · intro c hc
    rw [List.append_assoc, List.mem_append] at hc
    rcases hc with hc | hc
    · exact hws c hc
    · rcases List.mem_cons.mp hc with he | hc2
      · rw [he]
        rfl
      · have hall : ∀ x ∈ cb.pyname, Char.isWhitespace x = false := by
          cases cb <;> decide
        exact hall c hc2
  · have hsplit : pySplit ';' (lat.otype.name ++ [';'] ++ cb.pyname)
        = lat.otype.name :: [cb.pyname] := by
      rw [List.append_assoc, List.singleton_append]
      rw [pySplit_append ';' lat.otype.name cb.pyname hsemi]
      rw [pySplit_no_sep ';' cb.pyname (pyname_no_semi cb)]
    obtain ⟨lat2, s2, h1, h2, h3, h4, h5, h6, h7, h8, h9⟩ :=
      alloc_with_cb_spec lat.grid lat.otype cb s hne hok
    refine ⟨lat2, s2, ?_, h3, ?_⟩
    · unfold lattice_init_desc
      rw [hsplit]
      simp only [hreg, str_to_cb_pyname]
      exact h1
    · rcases query_cases lat s cb hq with ⟨hg1, hc⟩ | ⟨hg1, hc⟩
      · rw [hc]
        exact h8 hg1
      · exact h9 hc

/-- Witness for C6 at a concrete field and registry. -/
theorem describe_roundtrip_witness :
    checkerboard_query initA.1 initA.2 = some CB.none ∧
    reg0 initA.1.otype.name = some initA.1.otype ∧
    (lattice_describe initA.1 initA.2
        = some (initA.1.otype.name ++ [';'] ++ CB.none.pyname) ∧
     (∀ c ∈ initA.1.otype.name ++ [';'] ++ CB.none.pyname, c.isWhitespace = false) ∧
     (∃ lat2 s2,
        lattice_init_desc initA.1.grid reg0
            (initA.1.otype.name ++ [';'] ++ CB.none.pyname) initA.2
          = some (lat2, s2) ∧
        lat2.otype = initA.1.otype ∧ checkerboard_query lat2 s2 = some CB.none)) :=
  ⟨by decide, by decide,
   describe_roundtrip initA.1 initA.2 CB.none reg0 (by decide) (by decide) (by decide)
     (by decide) (by decide)⟩

/-- A read through a resolved subset key always carries the gathered element
data, whether or not it is unwrapped into a single tensor. -/
theorem getitem_data (lat : BLattice) (pos : List Pos) (tidx : List Tidx) (shape : List Nat) :
    (lattice_getitem lat (LKey.subset pos tidx shape)).data
      = readResolved lat.content pos tidx := by
  simp only [lattice_getitem, map_key]
  split
  · rfl
  · rfl

/-- C1: write/read round trip: writing a value of matching shape to a valid
(pairwise-distinct) coordinate/tensor-index subset and then reading the same
subset returns the value unchanged (exact equality in this exact-value
model, which subsumes both the bit-identical and the tolerance clause). -/
theorem write_read_roundtrip (lat : BLattice) (pos : List Pos) (tidx : List Tidx)
    (shape : List Nat) (vs : List Int)
    (hnd : (accessList pos tidx).Nodup)
    (htx : tidx.length = shape.prod)
    (hlen : vs.length = pos.length * shape.prod) :
    (lattice_getitem (lattice_setitem lat (LKey.subset pos tidx shape) (SetVal.arr vs))
        (LKey.subset pos tidx shape)).data = vs := by
  have hkey : ¬(LKey.subset pos tidx shape = LKey.fullSlice ∧ SetVal.arr vs = SetVal.int 0) :=
    fun h => LKey.noConfusion h.1
  have hup : copy_cyclic_upscale vs (pos.length * shape.prod) = vs := by
    unfold copy_cyclic_upscale
    rw [if_neg (by omega)]
  have hset : (lattice_setitem lat (LKey.subset pos tidx shape) (SetVal.arr vs)).content
      = applyWrites lat.content ((accessList pos tidx).zip vs) := by
    unfold lattice_setitem
    rw [if_neg hkey]
    simp only [map_key, tensor_to_value]
    rw [hup]
  rw [getitem_data, hset]
  show (accessList pos tidx).map _ = vs
  exact gather_scatter _ _ _ hnd (by rw [accessList_length, htx]; exact hlen)

/-- Witness for C1 at a concrete two-site scalar field. -/
theorem write_read_roundtrip_witness :
    (accessList [[0], [1]] [[]]).Nodup ∧
    ([[]] : List Tidx).length = ([] : List Nat).prod ∧
    ([5, 9] : List Int).length = ([[0], [1]] : List Pos).length * ([] : List Nat).prod ∧
    (lattice_getitem
        (lattice_setitem ⟨[2], [], fun _ _ => 0⟩ (LKey.subset [[0], [1]] [[]] [])
          (SetVal.arr [5, 9]))
        (LKey.subset [[0], [1]] [[]] [])).data = [5, 9] :=
  ⟨by decide, by decide, by decide,
   write_read_roundtrip ⟨[2], [], fun _ _ => 0⟩ [[0], [1]] [[]] [] [5, 9]
     (by decide) (by decide) (by decide)⟩

/-- C3: the full-slice zero fast path bulk-zeroes the storage directly and,
at every valid coordinate and tensor sub-index, leaves the field in the same
state as writing an explicit zero-filled buffer covering every coordinate
and sub-index through the general view/plan path. -/
theorem fullzero_fastpath (lat : BLattice) (p : Pos) (t : Tidx)
    (hp : p ∈ coordsOf lat.dims) (ht : t ∈ coordsOf lat.shape) :
    (lattice_setitem lat LKey.fullSlice (SetVal.int 0)).content p t = 0 ∧
    (lattice_setitem lat LKey.fullSlice
        (SetVal.arr
          (List.replicate ((coordsOf lat.dims).length * lat.shape.prod) 0))).content p t
      = 0 := by
  constructor
  · unfold lattice_setitem
    rw [if_pos ⟨rfl, rfl⟩]
  · have hN : (List.replicate ((coordsOf lat.dims).length * lat.shape.prod) (0 : Int)).length
        = (accessList (coordsOf lat.dims) (coordsOf lat.shape)).length := by
      rw [List.length_replicate, accessList_length, coordsOf_length, coordsOf_length]
    unfold lattice_setitem
    rw [if_neg (fun h => SetVal.noConfusion h.2)]
    simp only [map_key, tensor_to_value]
    rw [show copy_cyclic_upscale
          (List.replicate ((coordsOf lat.dims).length * lat.shape.prod) 0)
          ((coordsOf lat.dims).length * lat.shape.prod)
        = List.replicate ((coordsOf lat.dims).length * lat.shape.prod) 0 from by
      unfold copy_cyclic_upscale
      rw [if_neg (by simp)]]
    refine applyWrites_zero_mem _ _ _ _ ?_ ?_
    · rw [List.map_fst_zip _ _ (le_of_eq hN.symm)]
      exact mem_accessList _ _ _ _ hp ht
    · intro i hi
      exact List.eq_of_mem_replicate (List.of_mem_zip hi).2

/-- Witness for C3 at a concrete two-site field of 2-vectors. -/
theorem fullzero_fastpath_witness :
    ([0] : Pos) ∈ coordsOf blat0.dims ∧ ([1] : Tidx) ∈ coordsOf blat0.shape ∧
    ((lattice_setitem blat0 LKey.fullSlice (SetVal.int 0)).content [0] [1] = 0 ∧
     (lattice_setitem blat0 LKey.fullSlice
        (SetVal.arr
          (List.replicate ((coordsOf blat0.dims).length * blat0.shape.prod) 0))).content
        [0] [1] = 0) :=
  ⟨by decide, by decide, fullzero_fastpath blat0 [0] [1] (by decide) (by decide)⟩

/-- C7: a read unwraps into a single tensor exactly when the key resolves to
one position with the full per-site shape; every other case returns the
positioned array without unwrapping. -/
theorem getitem_unwrap (lat : BLattice) (pos : List Pos) (tidx : List Tidx)
    (shape : List Nat) :
    (pos.length = 1 ∧ shape = lat.shape →
      lattice_getitem lat (LKey.subset pos tidx shape)
        = ReadResult.tensor (readResolved lat.content pos tidx)) ∧
    (¬(pos.length = 1 ∧ shape = lat.shape) →
      lattice_getitem lat (LKey.subset pos tidx shape)
        = ReadResult.array pos.length shape (readResolved lat.content pos tidx)) := by
  constructor
  · intro h
    simp only [lattice_getitem, map_key]
    rw [if_pos h]
  · intro h
    simp only [lattice_getitem, map_key]
    rw [if_neg h]

/-- Witness for C7: one-position full-shape read unwraps, a two-position
read does not. -/
theorem getitem_unwrap_witness :
    (([[0]] : List Pos).length = 1 ∧ ([2] : List Nat) = blat0.shape) ∧
    lattice_getitem blat0 (LKey.subset [[0]] [[0], [1]] [2])
      = ReadResult.tensor (readResolved blat0.content [[0]] [[0], [1]]) ∧
    ¬(([[0], [1]] : List Pos).length = 1 ∧ ([2] : List Nat) = blat0.shape) ∧
    lattice_getitem blat0 (LKey.subset [[0], [1]] [[0], [1]] [2])
      = ReadResult.array ([[0], [1]] : List Pos).length [2]
          (readResolved blat0.content [[0], [1]] [[0], [1]]) :=
  ⟨⟨rfl, rfl⟩,
   (getitem_unwrap blat0 [[0]] [[0], [1]] [2]).1 ⟨rfl, rfl⟩,
   by decide,
   (getitem_unwrap blat0 [[0], [1]] [[0], [1]] [2]).2 (by decide)⟩

/-- C8: broadcast upscale: a value shorter than the required element count
is first cyclically replicated to exactly that count, so the written subset
reads back as the supplied pattern repeated cyclically across every selected
element. -/
theorem broadcast_upscale (lat : BLattice) (pos : List Pos) (tidx : List Tidx)
    (shape : List Nat) (vs : List Int)
    (hnd : (accessList pos tidx).Nodup)
    (htx : tidx.length = shape.prod)
    (hshort : vs.length < pos.length * shape.prod) :
    readResolved
        (lattice_setitem lat (LKey.subset pos tidx shape) (SetVal.arr vs)).content pos tidx
      = (List.range (pos.length * shape.prod)).map (fun i => vs.getD (i % vs.length) 0) := by
  have hkey : ¬(LKey.subset pos tidx shape = LKey.fullSlice ∧ SetVal.arr vs = SetVal.int 0) :=
    fun h => LKey.noConfusion h.1
  have hset : (lattice_setitem lat (LKey.subset pos tidx shape) (SetVal.arr vs)).content
      = applyWrites lat.content ((accessList pos tidx).zip
          ((List.range (pos.length * shape.prod)).map (fun i => vs.getD (i % vs.length) 0))) := by
    unfold lattice_setitem
    rw [if_neg hkey]
    simp only [map_key, tensor_to_value]
    rw [show copy_cyclic_upscale vs (pos.length * shape.prod)
        = (List.range (pos.length * shape.prod)).map (fun i => vs.getD (i % vs.length) 0) from by
      unfold copy_cyclic_upscale
      rw [if_pos hshort]]
  rw [hset]
  show (accessList pos tidx).map _ = _
  exact gather_scatter _ _ _ hnd
    (by rw [List.length_map, List.length_range, accessList_length, htx])

/-- Witness for C8: the 3-element pattern written to a 9-position subset
reads back as the pattern replicated three times. -/
theorem broadcast_upscale_witness :
    (accessList [[0], [1], [2], [3], [4], [5], [6], [7], [8]] [[]]).Nodup ∧
    ([[]] : List Tidx).length = ([] : List Nat).prod ∧
    ([1, 2, 3] : List Int).length
      < ([[0], [1], [2], [3], [4], [5], [6], [7], [8]] : List Pos).length
        * ([] : List Nat).prod ∧
    readResolved
        (lattice_setitem ⟨[9], [], fun _ _ => 0⟩
          (LKey.subset [[0], [1], [2], [3], [4], [5], [6], [7], [8]] [[]] [])
          (SetVal.arr [1, 2, 3])).content
        [[0], [1], [2], [3], [4], [5], [6], [7], [8]] [[]]
      = (List.range 9).map (fun i => ([1, 2, 3] : List Int).getD (i % 3) 0) ∧
    (List.range 9).map (fun i => ([1, 2, 3] : List Int).getD (i % 3) 0)
      = [1, 2, 3, 1, 2, 3, 1, 2, 3] :=
  ⟨by decide, by decide, by decide,
   broadcast_upscale ⟨[9], [], fun _ _ => 0⟩
     [[0], [1], [2], [3], [4], [5], [6], [7], [8]] [[]] [] [1, 2, 3]
     (by decide) (by decide) (by decide),
   by decide⟩

end GPT
